import Mathlib

/-!
Verification of the rtnetlink TLV dump tool (tools/nl_dump.py).

The development shallowly embeds the parsing and framing core of the
source file: the 4-byte alignment helpers, the netlink attribute (TLV)
encoder and the attribute tree parser of NlAttr, and the socket
reassembly loop of Rtnlsock.  Bytes are modelled as natural numbers,
buffers as lists of naturals, and the unbounded Python while loops as
fuel-indexed recursion: a result of none means the loop did not finish
within the given fuel (for the attribute parser an adequate fuel is
supplied by each theorem; a parse that returns none for every fuel is a
genuinely non-terminating run of the source loop).
-/

namespace NlDump

/-- roundup2 from the source: round val up to the next multiple of num
(num a power of two), using the bitwise-or trick of the Python code. -/
def roundup2 (val num : Nat) : Nat :=
  if val % num ≠ 0 then (val ||| (num - 1)) + 1 else val

/-- align4 from the source: round up to a multiple of 4. -/
def align4 (val : Nat) : Nat :=
  roundup2 val 4

/-- Read a host-endian (little-endian) 16-bit value at index i, as
struct.unpack with format @HH does on the two bytes at i and i+1. -/
def readU16 (data : List Nat) (i : Nat) : Nat :=
  data.getD i 0 + 256 * data.getD (i + 1) 0

/-- Read a little-endian 32-bit value at index i, as ctypes reads the
nlmsg_len field of Nlmsghdr. -/
def readU32 (data : List Nat) (i : Nat) : Nat :=
  data.getD i 0 + 256 * data.getD (i + 1) 0 + 65536 * data.getD (i + 2) 0 +
    16777216 * data.getD (i + 3) 0

/-- Little-endian bytes of a 16-bit value, as struct.pack with format @H
writes it (the caller guarantees the value fits, see nlattrBytes). -/
def packU16 (n : Nat) : List Nat :=
  [n % 256, n / 256 % 256]

/-- Attribute registry entry, the decoding rule for one attribute type.
The source keeps these as dict entries whose key is the attribute type:
an entry with no child key applies a scalar decoder, an entry with a
child key holds a child registry, and is_array marks an array of nested
attributes.  Modelled from the spec as a closed sum: scalarStr is the
scalar string decoder (the only scalar decoder the claims exercise),
nested and nestedArray carry the child registry. -/
inductive NlaRule where
  | scalarStr : NlaRule
  | nested : List (Nat × NlaRule) → NlaRule
  | nestedArray : List (Nat × NlaRule) → NlaRule

/-- Lookup of an attribute type in a registry, the model of
the Python membership test nla_type in attr_map. -/
def lookupRule : List (Nat × NlaRule) → Nat → Option NlaRule
  | [], _ => none
  | (k, r) :: rest, t => if k = t then some r else lookupRule rest t

/-- Decoded attribute value, one element of the ret list that
parse_nla_list builds.  unknown models the NlAttr fallback for an
unregistered type and carries the raw (unmasked) 16-bit type and the
payload bytes; scalarStr stores the masked type with the payload the
string decoder received; nested stores a registered nested tree;
arrayNested stores an ordered sequence of nested trees (each element
an AVal.nested holding the raw type tag of the element). -/
inductive AVal where
  | unknown : Nat → List Nat → AVal
  | scalarStr : Nat → List Nat → AVal
  | nested : Nat → List AVal → AVal
  | arrayNested : Nat → List AVal → AVal

/-- Parse errors of the attribute and message parsers.  truncatedPayload
models the ValueError the source raises when a declared attribute length
exceeds the remaining buffer; trailingGarbage models the failing assert
off == len at the end of parse_nla_list and carries the attributes that
were decoded before the leftover bytes (the source stores them in
self.nla_list before the assert runs); truncatedMessage models
from_buffer_copy failing on fewer than 16 bytes; truncatedTypeHeader
models the ValueError of the Tcmsg and Actmsg header parsers. -/
inductive PErr where
  | truncatedPayload : Nat → Nat → PErr
  | trailingGarbage : List AVal → Nat → Nat → PErr
  | truncatedMessage : PErr
  | truncatedTypeHeader : PErr

/-- Propagation of a recursively parsed child buffer: the child must be
consumed exactly (the recursive parse_nla_list call runs the same assert
off == len on the child data), and mk wraps the child attribute list.
Modelled from the spec for the nested and array registry rules, whose
parse_child and parse_child_array methods the source file never defines. -/
def nestChild (r : Option (Except PErr (List AVal × Nat))) (len : Nat)
    (mk : List AVal → AVal) : Option (Except PErr AVal) :=
  match r with
  | none => none
  | some (.error e) => some (.error e)
  | some (.ok (vs, off)) =>
      if off = len then some (.ok (mk vs))
      else some (.error (.trailingGarbage vs off len))

/-- The while loop of NlAttr.parse_nla_list (and of the identical
BaseNetlinkMessage.parse_attrs): walk the buffer while at least 4 bytes
remain, read the 2-byte length and 2-byte type, fail when the declared
length exceeds the remaining bytes, look the type masked to its low 14
bits up in the registry, and advance by the 4-byte-aligned declared
length.  Returns the decoded list together with the final offset (the
sum of the aligned lengths, which the caller checks against the buffer
length).  The isArr flag runs the loop in array-element mode, the
spec-modelled parse_child_array: every element is taken as a complete
outer attribute whose payload is parsed with the same registry.
Fuel bounds the recursion depth; none means the fuel ran out. -/
def parseTLVs : Nat → List (Nat × NlaRule) → Bool → List Nat →
    Option (Except PErr (List AVal × Nat))
  | 0, _, _, _ => none
  | fuel + 1, amap, isArr, data =>
    if data.length < 4 then some (.ok ([], 0))
    else
      let nla_len := readU16 data 0
      let raw_nla_type := readU16 data 2
      if data.length < nla_len then
        some (.error (.truncatedPayload nla_len data.length))
      else
        let nla_type := raw_nla_type &&& 0x3FFF
        let child_data := (data.drop 4).take (nla_len - 4)
        let val : Option (Except PErr AVal) :=
          if isArr then
            nestChild (parseTLVs fuel amap false child_data) child_data.length
              (AVal.nested raw_nla_type)
          else
            match lookupRule amap nla_type with
            | none => some (.ok (AVal.unknown raw_nla_type child_data))
            | some .scalarStr => some (.ok (AVal.scalarStr nla_type child_data))
            | some (.nested child) =>
                nestChild (parseTLVs fuel child false child_data)
                  child_data.length (AVal.nested nla_type)
            | some (.nestedArray child) =>
                nestChild (parseTLVs fuel child true child_data)
                  child_data.length (AVal.arrayNested nla_type)
        match val with
        | none => none
        | some (.error e) => some (.error e)
        | some (.ok v) =>
          match parseTLVs fuel amap isArr (data.drop (align4 nla_len)) with
          | none => none
          | some (.error e) => some (.error e)
          | some (.ok (vs, off)) => some (.ok (v :: vs, align4 nla_len + off))

/-- NlAttr.parse_nla_list: run the loop and then the assert off ==
len(self._data).  On a mismatch the result is the trailingGarbage error,
still carrying the attribute list the loop decoded (the source assigns
self.nla_list = ret before the assert). -/
def parse_nla_list (fuel : Nat) (amap : List (Nat × NlaRule)) (data : List Nat) :
    Option (Except PErr (List AVal)) :=
  match parseTLVs fuel amap false data with
  | none => none
  | some (.error e) => some (.error e)
  | some (.ok (vs, off)) =>
      if off = data.length then some (.ok vs)
      else some (.error (.trailingGarbage vs off data.length))

/-- NlAttr.__bytes__ body: length field is payload length plus 4, type
written as-is, payload padded with zero bytes to a multiple of 4. -/
def encTLV (ty : Nat) (dat : List Nat) : List Nat :=
  packU16 (dat.length + 4) ++ packU16 ty ++ dat ++
    List.replicate (align4 dat.length - dat.length) 0

/-- NlAttr.__bytes__: struct.pack with format @HH fails when a field
does not fit in 16 bits, so the encoder is partial in the source; none
models that struct.error. -/
def nlattrBytes (ty : Nat) (dat : List Nat) : Option (List Nat) :=
  if dat.length + 4 ≤ 65535 ∧ ty ≤ 65535 then some (encTLV ty dat) else none

/-- Concatenation of the encodings of a list of (type, payload) pairs,
as the source builds multi-attribute payloads by adding bytes(NlAttr(..))
fragments. -/
def encodeNlaList : List (Nat × List Nat) → Option (List Nat)
  | [] => some []
  | (t, p) :: rest =>
    match nlattrBytes t p, encodeNlaList rest with
    | some e, some es => some (e ++ es)
    | _, _ => none

/-- Message class selected by Rtnlsock.msg_map: TC filter opcodes 44, 45
and 46 map to TcNetlinkMessage, TC action opcodes 48, 49 and 50 to
ActNetlinkMessage, and every other opcode falls back to
BaseNetlinkMessage (dict.get default). -/
inductive MsgKind where
  | tc : MsgKind
  | act : MsgKind
  | base : MsgKind
deriving DecidableEq

/-- Rtnlsock.msg_map lookup with the BaseNetlinkMessage default. -/
def msg_map (t : Nat) : MsgKind :=
  if t = 44 ∨ t = 45 ∨ t = 46 then MsgKind.tc
  else if t = 48 ∨ t = 49 ∨ t = 50 then MsgKind.act
  else MsgKind.base

/-- The _parse_hdr method of each message class, applied to the bytes
after the 16-byte netlink header: BaseNetlinkMessage returns the whole
remainder together with its full length as the header offset; the TC
variant consumes the 20-byte Tcmsg and the action variant the 4-byte
Actmsg, each failing on a shorter buffer as the source raises
ValueError. -/
def parse_hdr : MsgKind → List Nat → Except PErr (List Nat × Nat)
  | MsgKind.base, data => .ok (data, data.length)
  | MsgKind.tc, data =>
      if data.length < 20 then .error .truncatedTypeHeader
      else .ok (data.take 20, 20)
  | MsgKind.act, data =>
      if data.length < 4 then .error .truncatedTypeHeader
      else .ok (data.take 4, 4)

/-- Result of BaseNetlinkMessage.parse: the type-specific header bytes
and, when any bytes remain after it, the attribute tree parsed from
them; root stays none when the header consumed everything (the source
leaves self.root unset in that case). -/
structure NlMsg where
  data_hdr : List Nat
  root : Option (List AVal)

/-- BaseNetlinkMessage.from_bytes followed by parse: read the 16-byte
netlink header (from_buffer_copy fails on fewer than 16 bytes), run the
_parse_hdr of the class msg_map selects for the nlmsg_type at offset 4,
and parse the bytes after the type-specific header as an attribute tree
with the nl_attr_map of the class, which is the empty dict for every
class in the source. -/
def msgParse (fuel : Nat) (orig : List Nat) : Option (Except PErr NlMsg) :=
  if orig.length < 16 then some (.error .truncatedMessage)
  else
    match parse_hdr (msg_map (readU16 orig 4)) (orig.drop 16) with
    | .error e => some (.error e)
    | .ok (hdr, hdr_off) =>
      if 16 + hdr_off < orig.length then
        match parse_nla_list fuel [] (orig.drop (16 + hdr_off)) with
        | none => none
        | some (.error e) => some (.error e)
        | some (.ok vs) => some (.ok ⟨hdr, some vs⟩)
      else some (.ok ⟨hdr, none⟩)

/-- State of the Rtnlsock transport reassembler: the datagrams the
socket will deliver on future recv calls, and the accumulation buffer
self._data. -/
structure SockState where
  recvQueue : List (List Nat)
  buf : List Nat

/-- Loop body of Rtnlsock.read_data: append one received datagram to the
buffer and stop once at least 16 bytes (sizeof Nlmsghdr) are buffered.
An empty queue models a recv that blocks forever: the call never
returns, hence none. -/
def read_data_go : List (List Nat) → List Nat → Option SockState
  | [], _ => none
  | c :: rest, buf =>
    if 16 ≤ (buf ++ c).length then some ⟨rest, buf ++ c⟩
    else read_data_go rest (buf ++ c)

/-- Rtnlsock.read_data on the reassembler state. -/
def read_data (st : SockState) : Option SockState :=
  read_data_go st.recvQueue st.buf

/-- The while hdr.nlmsg_len > len(self._data) loop of read_message:
keep calling read_data until the buffer holds the declared length.
Every iteration consumes at least one queued datagram, so queue length
plus one is always enough fuel; none again means the loop blocked. -/
def pump : Nat → Nat → SockState → Option SockState
  | 0, _, _ => none
  | fuel + 1, need, st =>
    if need ≤ st.buf.length then some st
    else
      match read_data st with
      | none => none
      | some st2 => pump fuel need st2

/-- Rtnlsock.read_message: top up the buffer to at least 16 bytes, read
nlmsg_len from the buffered header, receive until the buffer holds that
many bytes, then slice the message off the front of the buffer.  The
returned message is the raw byte slice the source wraps with
cls.from_bytes. -/
def read_message (st : SockState) : Option (List Nat × SockState) :=
  match (if st.buf.length < 16 then read_data st else some st) with
  | none => none
  | some st1 =>
    let msgLen := readU32 st1.buf 0
    match pump (st1.recvQueue.length + 1) msgLen st1 with
    | none => none
    | some st2 => some (st2.buf.take msgLen, ⟨st2.recvQueue, st2.buf.drop msgLen⟩)

/-- Rtnlsock.read_dump: collect messages until one whose nlmsg_type
(the 16-bit field at offset 4) equals 3, the DONE sentinel, which is
dropped.  Fuel bounds the number of messages read. -/
def read_dump : Nat → SockState → Option (List (List Nat) × SockState)
  | 0, _ => none
  | fuel + 1, st =>
    match read_message st with
    | none => none
    | some (msg, st2) =>
      if readU16 msg 4 = 3 then some ([], st2)
      else
        match read_dump fuel st2 with
        | none => none
        | some (msgs, st3) => some (msg :: msgs, st3)

/-- Well-formed complete netlink message: at least the 16-byte header,
and the declared nlmsg_len equal to the actual byte count. -/
def WfMsg (m : List Nat) : Prop :=
  16 ≤ m.length ∧ readU32 m 0 = m.length

/-- Concatenated canonical encoding of (type, payload) pairs, the total
encoder underlying encodeNlaList. -/
def encListCore : List (Nat × List Nat) → List Nat
  | [] => []
  | (t, p) :: rest => encTLV t p ++ encListCore rest

/-- Every pair fits the 16-bit length and type fields of the TLV header. -/
def PairsFit (pairs : List (Nat × List Nat)) : Prop :=
  ∀ tp ∈ pairs, tp.1 ≤ 65535 ∧ tp.2.length + 4 ≤ 65535

/-- Byte values of the string foo, used by the nested-array example. -/
def fooBytes : List Nat := [102, 111, 111]

/-- Byte values of the string bar, used by the nested-array example. -/
def barBytes : List Nat := [98, 97, 114]

/-- Child registry of the nested-array example: type 1 decodes as a
scalar string. -/
def childReg : List (Nat × NlaRule) := [(1, NlaRule.scalarStr)]

/-- Parent registry of the nested-array example: type 1 is a nested
array whose elements are parsed with childReg. -/
def parentReg : List (Nat × NlaRule) := [(1, NlaRule.nestedArray childReg)]

/-- A 24-byte message with the unregistered nlmsg_type 99: the 16-byte
netlink header followed by one 8-byte TLV of type 1 with payload
1 2 3 4. -/
def m99 : List Nat :=
  [24, 0, 0, 0, 99, 0, 0, 0, 0, 0, 0, 0, 0, 0, 0, 0, 8, 0, 1, 0, 1, 2, 3, 4]

/-- Bitwise-or with 3 sets the two low bits: the core of roundup2. -/
theorem lor_three (q r : Nat) (h : r < 4) : (4 * q + r) ||| 3 = 4 * q + 3 := by
  apply Nat.eq_of_testBit_eq
  intro i
  rw [Nat.testBit_lor]
  match i with
  | 0 =>
    rw [Nat.testBit_zero, Nat.testBit_zero, Nat.testBit_zero]
    have h1 : (4 * q + 3) % 2 = 1 := by omega
    have h2 : (3 : Nat) % 2 = 1 := by norm_num
    simp [h1, h2]
  | 1 =>
    rw [Nat.testBit_succ, Nat.testBit_succ, Nat.testBit_succ,
      Nat.testBit_zero, Nat.testBit_zero, Nat.testBit_zero]
    have h1 : (4 * q + 3) / 2 % 2 = 1 := by omega
    have h2 : (3 : Nat) / 2 % 2 = 1 := by norm_num
    simp [h1, h2]
  | i + 2 =>
    rw [Nat.testBit_succ, Nat.testBit_succ, Nat.testBit_succ,
      Nat.testBit_succ, Nat.testBit_succ, Nat.testBit_succ]
    have h1 : (4 * q + r) / 2 / 2 = q := by omega
    have h2 : (4 * q + 3) / 2 / 2 = q := by omega
    have h3 : (3 : Nat) / 2 / 2 = 0 := by norm_num
    rw [h1, h2, h3]
    simp

/-- Arithmetic characterization of align4. -/
theorem align4_eq (v : Nat) : align4 v = v + (4 - v % 4) % 4 := by
  unfold align4 roundup2
  by_cases h : v % 4 = 0
  · simp [h]
  · rw [if_pos (by simpa using h)]
    have h41 : (4 : Nat) - 1 = 3 := rfl
    rw [h41]
    have hd := Nat.div_add_mod v 4
    have hl := lor_three (v / 4) (v % 4) (Nat.mod_lt v (by norm_num))
    have hv : v ||| 3 = 4 * (v / 4) + 3 := by rw [← hl]; congr 1; omega
    omega

theorem align4_mod (v : Nat) : align4 v % 4 = 0 := by
  rw [align4_eq]; omega

theorem align4_ge (v : Nat) : v ≤ align4 v := by
  rw [align4_eq]; omega

theorem align4_lt (v : Nat) : align4 v < v + 4 := by
  rw [align4_eq]; omega

theorem align4_add4 (v : Nat) : align4 (v + 4) = align4 v + 4 := by
  rw [align4_eq, align4_eq]; omega

theorem encTLV_length (ty : Nat) (dat : List Nat) :
    (encTLV ty dat).length = align4 (dat.length + 4) := by
  have h1 := align4_ge dat.length
  have h2 := align4_add4 dat.length
  simp [encTLV, packU16]
  omega

theorem parseTLVs_unknown_step (fuel : Nat) (amap : List (Nat × NlaRule))
    (data : List Nat) (vs : List AVal) (c : Nat)
    (h4 : 4 ≤ data.length)
    (hb : readU16 data 0 ≤ data.length)
    (hlook : lookupRule amap (readU16 data 2 &&& 16383) = none)
    (hrest : parseTLVs fuel amap false (data.drop (align4 (readU16 data 0))) =
      some (.ok (vs, c))) :
    parseTLVs (fuel + 1) amap false data =
      some (.ok (AVal.unknown (readU16 data 2) ((data.drop 4).take (readU16 data 0 - 4)) :: vs,
        align4 (readU16 data 0) + c)) := by
  simp only [parseTLVs]
  rw [if_neg (by omega), if_neg (by omega)]
  rw [hlook, hrest]
  rfl

theorem parseTLVs_short (fuel : Nat) (amap : List (Nat × NlaRule)) (isArr : Bool)
    (data : List Nat) (h : data.length < 4) :
    parseTLVs (fuel + 1) amap isArr data = some (.ok ([], 0)) := by
  simp [parseTLVs, if_pos h]

theorem parseTLVs_enc_step (fuel : Nat) (amap : List (Nat × NlaRule)) (t : Nat)
    (p pad rest : List Nat) (vs : List AVal) (c : Nat)
    (ht : t ≤ 65535) (hp : p.length + 4 ≤ 65535)
    (hpad : pad.length = align4 (p.length + 4) - (p.length + 4))
    (hlook : lookupRule amap (t &&& 16383) = none)
    (hrest : parseTLVs fuel amap false rest = some (.ok (vs, c))) :
    parseTLVs (fuel + 1) amap false ((packU16 (p.length + 4) ++ packU16 t ++ p ++ pad) ++ rest) =
      some (.ok (AVal.unknown t p :: vs, align4 (p.length + 4) + c)) := by
  have hge := align4_ge (p.length + 4)
  set D := (packU16 (p.length + 4) ++ packU16 t ++ p ++ pad) ++ rest with hD
  have hcons : D = (p.length + 4) % 256 :: (p.length + 4) / 256 % 256 ::
      t % 256 :: t / 256 % 256 :: (p ++ (pad ++ rest)) := by
    simp [hD, packU16]
  have hplen : (packU16 (p.length + 4) ++ packU16 t ++ p ++ pad).length =
      align4 (p.length + 4) := by
    simp [packU16]
    omega
  have hDlen : D.length = align4 (p.length + 4) + rest.length := by
    rw [hD, List.length_append, hplen]
  have h0 : readU16 D 0 = p.length + 4 := by
    rw [hcons]
    simp [readU16, List.getD_cons_zero, List.getD_cons_succ]
    omega
  have h2 : readU16 D 2 = t := by
    rw [hcons]
    simp [readU16, List.getD_cons_zero, List.getD_cons_succ]
    omega
  have hdrop4 : D.drop 4 = p ++ (pad ++ rest) := by rw [hcons]; rfl
  have htake : (D.drop 4).take (readU16 D 0 - 4) = p := by
    rw [hdrop4, h0]
    have : p.length + 4 - 4 = p.length := by omega
    rw [this]
    exact List.take_left p (pad ++ rest)
  have hdropA : D.drop (align4 (readU16 D 0)) = rest := by
    rw [h0, hD, ← hplen]
    exact List.drop_left _ _
  have hstep := parseTLVs_unknown_step fuel amap D vs c
    (by omega) (by omega)
    (by rw [h2]; exact hlook)
    (by rw [hdropA]; exact hrest)
  rw [htake, h0, h2] at hstep
  exact hstep

theorem encodeNlaList_eq (pairs : List (Nat × List Nat)) (buf : List Nat)
    (h : encodeNlaList pairs = some buf) :
    buf = encListCore pairs ∧ PairsFit pairs := by
  induction pairs generalizing buf with
  | nil =>
    simp [encodeNlaList] at h
    subst h
    exact ⟨rfl, by intro tp htp; simp at htp⟩
  | cons tp rest ih =>
    obtain ⟨t, p⟩ := tp
    simp only [encodeNlaList] at h
    cases he : nlattrBytes t p with
    | none => rw [he] at h; simp at h
    | some e =>
      cases hes : encodeNlaList rest with
      | none => rw [he, hes] at h; simp at h
      | some es =>
        rw [he, hes] at h
        simp at h
        obtain ⟨hes2, hfit⟩ := ih es hes
        have hfit1 : t ≤ 65535 ∧ p.length + 4 ≤ 65535 := by
          by_contra hc
          unfold nlattrBytes at he
          rw [if_neg (by tauto)] at he
          exact Option.noConfusion he
        have hee : e = encTLV t p := by
          unfold nlattrBytes at he
          rw [if_pos (by tauto)] at he
          exact (Option.some.injEq _ _).mp he.symm ▸ rfl
        constructor
        · rw [← h, hee, hes2]; rfl
        · intro x hx
          rcases List.mem_cons.mp hx with hx2 | hx2
          · rw [hx2]; exact ⟨hfit1.1, hfit1.2⟩
          · exact hfit x hx2

theorem parseTLVs_encList (pairs : List (Nat × List Nat)) (suffix : List Nat)
    (fuel : Nat) (vs : List AVal) (c : Nat)
    (hfit : PairsFit pairs)
    (hsuf : parseTLVs fuel [] false suffix = some (.ok (vs, c))) :
    parseTLVs (pairs.length + fuel) [] false (encListCore pairs ++ suffix) =
      some (.ok (pairs.map (fun tp => AVal.unknown tp.1 tp.2) ++ vs,
        (encListCore pairs).length + c)) := by
  induction pairs with
  | nil => simpa [encListCore] using hsuf
  | cons tp rest ih =>
    obtain ⟨t, p⟩ := tp
    have hfit1 := hfit (t, p) (by simp)
    have hfitr : PairsFit rest := fun x hx => hfit x (List.mem_cons_of_mem _ hx)
    have ihr := ih hfitr
    have hlen := encTLV_length t p
    have hidx : (((t, p) :: rest).length + fuel) = (rest.length + fuel) + 1 := by
      simp [List.length_cons]; omega
    rw [hidx]
    have hpadlen : (List.replicate (align4 p.length - p.length) (0 : Nat)).length =
        align4 (p.length + 4) - (p.length + 4) := by
      have h1 := align4_ge p.length
      have h2 := align4_add4 p.length
      simp [List.length_replicate]
      omega
    have hstep := parseTLVs_enc_step (rest.length + fuel) [] t p
      (List.replicate (align4 p.length - p.length) 0) (encListCore rest ++ suffix)
      (rest.map (fun tp => AVal.unknown tp.1 tp.2) ++ vs) ((encListCore rest).length + c)
      hfit1.1 hfit1.2 hpadlen rfl ihr
    simp only [encListCore, List.map_cons, List.length_append, List.append_assoc]
    rw [show encTLV t p ++ (encListCore rest ++ suffix) =
        (packU16 (p.length + 4) ++ packU16 t ++ p ++
          List.replicate (align4 p.length - p.length) 0) ++ (encListCore rest ++ suffix) from by
      simp [encTLV, List.append_assoc]]
    rw [hstep]
    simp [hlen, Nat.add_assoc]

/-- C1: round-trip.  For every attribute tree built from a sequence of
(type, payload) pairs whose types are looked up in an empty registry,
serializing each attribute with the encoder and parsing the concatenated
bytes back with that registry yields a tree equal to the original: the
same number of attributes, with the same types, payload bytes, order and
(flat, all leaves unregistered) nesting. -/
theorem C1_roundtrip (pairs : List (Nat × List Nat)) (buf : List Nat)
    (henc : encodeNlaList pairs = some buf) :
    parse_nla_list (pairs.length + 1) [] buf =
      some (.ok (pairs.map (fun tp => AVal.unknown tp.1 tp.2))) := by
  obtain ⟨hbuf, hfit⟩ := encodeNlaList_eq pairs buf henc
  subst hbuf
  have h := parseTLVs_encList pairs [] 1 [] 0 hfit rfl
  rw [List.append_nil] at h
  unfold parse_nla_list
  rw [h]
  simp

theorem C1_witness :
    parse_nla_list 3 [] [5, 0, 1, 0, 170, 0, 0, 0, 7, 0, 1, 192, 1, 2, 3, 0] =
      some (.ok [AVal.unknown 1 [170], AVal.unknown 49153 [1, 2, 3]]) :=
  C1_roundtrip [(1, [170]), (49153, [1, 2, 3])]
    [5, 0, 1, 0, 170, 0, 0, 0, 7, 0, 1, 192, 1, 2, 3, 0] rfl

/-- C10: trailing garbage.  A top-level buffer whose parse leaves
between 1 and 3 bytes unconsumed signals a detectable trailingGarbage
condition rather than silently succeeding, and the error value still
carries the attributes decoded before the leftover bytes, so parsing of
prior siblings is not discarded. -/
theorem C10_trailing_garbage (pairs : List (Nat × List Nat)) (buf junk : List Nat)
    (henc : encodeNlaList pairs = some buf)
    (hj1 : 1 ≤ junk.length) (hj3 : junk.length ≤ 3) :
    parse_nla_list (pairs.length + 1) [] (buf ++ junk) =
      some (.error (.trailingGarbage (pairs.map (fun tp => AVal.unknown tp.1 tp.2))
        buf.length (buf.length + junk.length))) := by
  obtain ⟨hbuf, hfit⟩ := encodeNlaList_eq pairs buf henc
  subst hbuf
  have hsuf : parseTLVs 1 [] false junk = some (.ok ([], 0)) :=
    parseTLVs_short 0 [] false junk (by omega)
  have h := parseTLVs_encList pairs junk 1 [] 0 hfit hsuf
  unfold parse_nla_list
  rw [h]
  have hjne : junk.length ≠ 0 := by omega
  simp [List.length_append, hjne]

theorem C10_witness :
    parse_nla_list 2 [] ([5, 0, 1, 0, 170, 0, 0, 0] ++ [9, 9]) =
      some (.error (.trailingGarbage [AVal.unknown 1 [170]] 8 10)) :=
  C10_trailing_garbage [(1, [170])] [5, 0, 1, 0, 170, 0, 0, 0] [9, 9] rfl
    (by norm_num) (by norm_num)

/-- C5: bounds rejection.  Whenever a TLV header declares a length that
exceeds the bytes remaining in the buffer, decoding fails with
truncatedPayload: the payload is never read past the end and never
silently truncated. -/
theorem C5_truncated_payload (amap : List (Nat × NlaRule)) (isArr : Bool)
    (data : List Nat) (fuel : Nat)
    (h4 : 4 ≤ data.length) (hover : data.length < readU16 data 0) :
    parseTLVs (fuel + 1) amap isArr data =
      some (.error (.truncatedPayload (readU16 data 0) data.length)) := by
  simp only [parseTLVs]
  rw [if_neg (by omega), if_pos hover]

theorem C5_witness :
    parseTLVs 1 [] false [20, 0, 1, 0, 0, 0, 0, 0, 0, 0] =
      some (.error (.truncatedPayload 20 10)) :=
  C5_truncated_payload [] false [20, 0, 1, 0, 0, 0, 0, 0, 0, 0] 0
    (by norm_num) (by norm_num [readU16])

/-- C4: unknown-type preservation.  The registry is consulted with the
type field masked to its low 14 bits, and when that masked type has no
entry the parser does not fail: it stores an opaque leaf carrying the
raw unmasked 16-bit type and exactly the original payload bytes, and
parsing continues with the rest of the buffer. -/
theorem C4_unknown_preserved (fuel : Nat) (amap : List (Nat × NlaRule))
    (data : List Nat) (vs : List AVal) (c : Nat)
    (h4 : 4 ≤ data.length)
    (hb : readU16 data 0 ≤ data.length)
    (hlook : lookupRule amap (readU16 data 2 &&& 16383) = none)
    (hrest : parseTLVs fuel amap false (data.drop (align4 (readU16 data 0))) =
      some (.ok (vs, c))) :
    parseTLVs (fuel + 1) amap false data =
      some (.ok (AVal.unknown (readU16 data 2)
        ((data.drop 4).take (readU16 data 0 - 4)) :: vs,
        align4 (readU16 data 0) + c)) :=
  parseTLVs_unknown_step fuel amap data vs c h4 hb hlook hrest

theorem C4_witness :
    parseTLVs 2 [(2, NlaRule.scalarStr)] false [8, 0, 1, 192, 7, 7, 7, 7] =
      some (.ok ([AVal.unknown 49153 [7, 7, 7, 7]], 8)) :=
  C4_unknown_preserved 1 [(2, NlaRule.scalarStr)] [8, 0, 1, 192, 7, 7, 7, 7] [] 0
    (by decide) (by decide) rfl rfl

/-- C3: the attribute parsing loop does NOT terminate on every input.
On the 4-byte buffer holding a TLV with declared length 0, align4 0 = 0
never advances the offset, so the source loop runs forever: the model
returns none at every fuel. -/
theorem C3_zero_length_loops :
    ∀ fuel : Nat, parseTLVs fuel [] false [0, 0, 0, 0] = none := by
  intro fuel
  induction fuel with
  | zero => rfl
  | succ n ih => simp [parseTLVs, ih, readU16, lookupRule, align4, roundup2]

/-- C7: padding.  Encoding a payload of length L (with L + 4 fitting in
a u16) yields a TLV whose total byte length is align4 (L + 4), which is
the smallest multiple of 4 at least L + 4 (it is divisible by 4, at
least L + 4 and below L + 8), with zero bytes appended after the header
and payload; and decoding such a TLV consumes exactly align4 (L + 4)
bytes regardless of the values of the padding bytes. -/
theorem C7_padding (ty : Nat) (p pad e : List Nat)
    (henc : nlattrBytes ty p = some e)
    (hpad : pad.length = align4 (p.length + 4) - (p.length + 4)) :
    e.length = align4 (p.length + 4) ∧
    align4 (p.length + 4) % 4 = 0 ∧
    p.length + 4 ≤ align4 (p.length + 4) ∧
    align4 (p.length + 4) < p.length + 4 + 4 ∧
    e.drop (4 + p.length) = List.replicate (align4 (p.length + 4) - (p.length + 4)) 0 ∧
    parseTLVs 2 [] false (packU16 (p.length + 4) ++ packU16 ty ++ p ++ pad) =
      some (.ok ([AVal.unknown ty p], align4 (p.length + 4))) := by
  have hfit : p.length + 4 ≤ 65535 ∧ ty ≤ 65535 := by
    by_contra hc
    unfold nlattrBytes at henc
    rw [if_neg hc] at henc
    exact Option.noConfusion henc
  have hee : e = encTLV ty p := by
    unfold nlattrBytes at henc
    rw [if_pos hfit] at henc
    exact (Option.some.inj henc).symm
  have hcons : e = (p.length + 4) % 256 :: (p.length + 4) / 256 % 256 ::
      ty % 256 :: ty / 256 % 256 :: (p ++ List.replicate (align4 p.length - p.length) 0) := by
    rw [hee]; simp [encTLV, packU16]
  have hk : align4 p.length - p.length = align4 (p.length + 4) - (p.length + 4) := by
    have := align4_add4 p.length
    omega
  refine ⟨?_, align4_mod _, align4_ge _, align4_lt _, ?_, ?_⟩
  · rw [hee]; exact encTLV_length ty p
  · have hd4 : e.drop 4 = p ++ List.replicate (align4 p.length - p.length) 0 := by
      rw [hcons]; rfl
    rw [← List.drop_drop p.length 4 e, hd4, List.drop_left, hk]
  · have hstep := parseTLVs_enc_step 1 [] ty p pad [] [] 0 hfit.2 hfit.1 hpad rfl rfl
    rw [List.append_nil] at hstep
    simpa using hstep

theorem C7_witness :
    ([5, 0, 5, 0, 9, 0, 0, 0] : List Nat).length = align4 ([9].length + 4) ∧
    align4 ([9].length + 4) % 4 = 0 ∧
    [9].length + 4 ≤ align4 ([9].length + 4) ∧
    align4 ([9].length + 4) < [9].length + 4 + 4 ∧
    ([5, 0, 5, 0, 9, 0, 0, 0] : List Nat).drop (4 + [9].length) =
      List.replicate (align4 ([9].length + 4) - ([9].length + 4)) 0 ∧
    parseTLVs 2 [] false (packU16 ([9].length + 4) ++ packU16 5 ++ [9] ++ [255, 0, 7]) =
      some (.ok ([AVal.unknown 5 [9]], align4 ([9].length + 4))) :=
  C7_padding 5 [9] [255, 0, 7] [5, 0, 5, 0, 9, 0, 0, 0] rfl rfl

theorem readU32_prefix (a b : List Nat) (h : 4 ≤ a.length) :
    readU32 (a ++ b) 0 = readU32 a 0 := by
  unfold readU32
  rw [List.getD_append a b 0 0 (by omega), List.getD_append a b 0 1 (by omega),
    List.getD_append a b 0 2 (by omega), List.getD_append a b 0 3 (by omega)]

theorem read_message_single (m : List Nat) (q : List (List Nat)) (hwf : WfMsg m) :
    read_message ⟨m :: q, []⟩ = some (m, ⟨q, []⟩) := by
  obtain ⟨h16, hlen⟩ := hwf
  have hrd : read_data ⟨m :: q, []⟩ = some ⟨q, m⟩ := by
    unfold read_data read_data_go
    simp [h16]
  unfold read_message
  rw [if_pos (by simp), hrd]
  have hpump : pump (q.length + 1) (readU32 m 0) ⟨q, m⟩ = some ⟨q, m⟩ := by
    unfold pump
    rw [if_pos (by simp [hlen])]
  simp only [hpump]
  simp [hlen, List.take_length, List.drop_length]

/-- Step equation of read_dump. -/
theorem read_dump_succ (fuel : Nat) (st : SockState) :
    read_dump (fuel + 1) st =
      match read_message st with
      | none => none
      | some (msg, st2) =>
        if readU16 msg 4 = 3 then some ([], st2)
        else
          match read_dump fuel st2 with
          | none => none
          | some (msgs, st3) => some (msg :: msgs, st3) := rfl

theorem read_dump_aux (msgs : List (List Nat)) :
    ∀ dmsg : List Nat,
      (∀ x ∈ msgs, WfMsg x ∧ readU16 x 4 ≠ 3) → WfMsg dmsg → readU16 dmsg 4 = 3 →
      read_dump (msgs.length + 1) ⟨msgs ++ [dmsg], []⟩ = some (msgs, ⟨[], []⟩) := by
  induction msgs with
  | nil =>
    intro dmsg _ hd hdt
    show read_dump (0 + 1) ⟨[dmsg], []⟩ = some ([], ⟨[], []⟩)
    rw [read_dump_succ, read_message_single dmsg [] hd]
    simp [hdt]
  | cons x ms ih =>
    intro dmsg hm hd hdt
    have hx := hm x (by simp)
    show read_dump ((ms.length + 1) + 1) ⟨x :: (ms ++ [dmsg]), []⟩ =
      some (x :: ms, ⟨[], []⟩)
    rw [read_dump_succ, read_message_single x (ms ++ [dmsg]) hx.1]
    show (if readU16 x 4 = 3 then some ([], (⟨ms ++ [dmsg], []⟩ : SockState))
        else
          match read_dump (ms.length + 1) (⟨ms ++ [dmsg], []⟩ : SockState) with
          | none => none
          | some (msgs, st3) => some (x :: msgs, st3)) =
      some (x :: ms, (⟨[], []⟩ : SockState))
    rw [if_neg hx.2, ih dmsg (fun y hy => hm y (by simp [hy])) hd hdt]

/-- C2: dump termination.  read_dump over a queue delivering N complete
messages whose type is not 3 followed by one message of the reserved
DONE type 3 returns exactly those N messages in their original order,
and the DONE message is not in the returned sequence. -/
theorem C2_drain_dump (msgs : List (List Nat)) (dmsg : List Nat)
    (hm : ∀ x ∈ msgs, WfMsg x ∧ readU16 x 4 ≠ 3)
    (hd : WfMsg dmsg) (hdt : readU16 dmsg 4 = 3) :
    read_dump (msgs.length + 1) ⟨msgs ++ [dmsg], []⟩ = some (msgs, ⟨[], []⟩) ∧
      dmsg ∉ msgs :=
  ⟨read_dump_aux msgs dmsg hm hd hdt, fun hmem => (hm dmsg hmem).2 hdt⟩

theorem C2_witness :
    read_dump 2 ⟨[[20, 0, 0, 0, 16, 0, 5, 3, 1, 0, 0, 0, 2, 0, 0, 0, 9, 9, 9, 9],
        [16, 0, 0, 0, 3, 0, 0, 0, 0, 0, 0, 0, 0, 0, 0, 0]], []⟩ =
      some ([[20, 0, 0, 0, 16, 0, 5, 3, 1, 0, 0, 0, 2, 0, 0, 0, 9, 9, 9, 9]], ⟨[], []⟩) ∧
      [16, 0, 0, 0, 3, 0, 0, 0, 0, 0, 0, 0, 0, 0, 0, 0] ∉
        [[20, 0, 0, 0, 16, 0, 5, 3, 1, 0, 0, 0, 2, 0, 0, 0, 9, 9, 9, 9]] :=
  C2_drain_dump [[20, 0, 0, 0, 16, 0, 5, 3, 1, 0, 0, 0, 2, 0, 0, 0, 9, 9, 9, 9]]
    [16, 0, 0, 0, 3, 0, 0, 0, 0, 0, 0, 0, 0, 0, 0, 0]
    (by intro x hx; rcases List.mem_cons.mp hx with h | h
        · subst h; exact ⟨⟨by decide, by decide⟩, by decide⟩
        · simp at h)
    ⟨by decide, by decide⟩ (by decide)

theorem read_data_go_cons_ge (c : List Nat) (rest : List (List Nat)) (buf : List Nat)
    (h : 16 ≤ (buf ++ c).length) :
    read_data_go (c :: rest) buf = some ⟨rest, buf ++ c⟩ := by
  unfold read_data_go
  rw [if_pos h]

theorem read_data_go_cons_lt (c : List Nat) (rest : List (List Nat)) (buf : List Nat)
    (h : ¬ 16 ≤ (buf ++ c).length) :
    read_data_go (c :: rest) buf = read_data_go rest (buf ++ c) := by
  show (if 16 ≤ (buf ++ c).length then some (⟨rest, buf ++ c⟩ : SockState)
      else read_data_go rest (buf ++ c)) = read_data_go rest (buf ++ c)
  rw [if_neg h]

theorem pump_done (fuel need : Nat) (st : SockState) (h : need ≤ st.buf.length) :
    pump (fuel + 1) need st = some st := by
  unfold pump
  rw [if_pos h]

theorem pump_step (fuel need : Nat) (st st2 : SockState) (h : ¬ need ≤ st.buf.length)
    (hrd : read_data st = some st2) :
    pump (fuel + 1) need st = pump fuel need st2 := by
  show (if need ≤ st.buf.length then some st
      else match read_data st with
           | none => none
           | some st3 => pump fuel need st3) = pump fuel need st2
  rw [if_neg h, hrd]

/-- C6: reassembly.  Delivering a complete message split across two
receive calls yields exactly the same decoded message and final state as
delivering it in one receive: the buffer shrinks by exactly the declared
message length, with no bytes duplicated and none lost. -/
theorem C6_reassembly (m a b : List Nat) (hwf : WfMsg m) (hab : m = a ++ b) (hb : b ≠ []) :
    read_message ⟨[a, b], []⟩ = some (m, ⟨[], []⟩) ∧
    read_message ⟨[m], []⟩ = some (m, ⟨[], []⟩) := by
  refine ⟨?_, read_message_single m [] hwf⟩
  obtain ⟨h16, hlen⟩ := hwf
  have hba : a ++ b = m := hab.symm
  have hblen : 1 ≤ b.length := by
    cases b with
    | nil => exact absurd rfl hb
    | cons y ys => simp
  have hmlen : m.length = a.length + b.length := by rw [hab]; simp
  by_cases ha : a.length < 16
  · have hrd : read_data ⟨[a, b], []⟩ = some ⟨[], m⟩ := by
      show read_data_go [a, b] [] = some (⟨[], m⟩ : SockState)
      rw [read_data_go_cons_lt a [b] [] (by simp; omega), List.nil_append,
        read_data_go_cons_ge b [] a (by rw [hba]; omega), hba]
    have hpump : pump 1 m.length ⟨[], m⟩ = some ⟨[], m⟩ :=
      pump_done 0 m.length ⟨[], m⟩ (le_refl _)
    unfold read_message
    rw [if_pos (by simp), hrd]
    simp [hlen, hpump, List.take_length, List.drop_length]
  · have hrd : read_data ⟨[a, b], []⟩ = some ⟨[b], a⟩ := by
      show read_data_go [a, b] [] = some (⟨[b], a⟩ : SockState)
      rw [read_data_go_cons_ge a [b] [] (by simp; omega), List.nil_append]
    have hra : readU32 a 0 = m.length := by
      rw [hab] at hlen
      rw [← readU32_prefix a b (by omega), hlen, hba]
    have hrd2 : read_data ⟨[b], a⟩ = some ⟨[], m⟩ := by
      show read_data_go [b] a = some (⟨[], m⟩ : SockState)
      rw [read_data_go_cons_ge b [] a (by rw [hba]; omega), hba]
    have hpump2 : pump 2 m.length ⟨[b], a⟩ = some ⟨[], m⟩ := by
      show pump (1 + 1) m.length ⟨[b], a⟩ = some ⟨[], m⟩
      rw [pump_step 1 m.length ⟨[b], a⟩ ⟨[], m⟩ (by simp; omega) hrd2]
      exact pump_done 0 m.length ⟨[], m⟩ (le_refl _)
    unfold read_message
    rw [if_pos (by simp), hrd]
    simp [hra, hpump2, List.take_length, List.drop_length]

theorem C6_witness :
    read_message ⟨[[20, 0, 0, 0, 16, 0, 5, 3, 1, 0],
        [0, 0, 2, 0, 0, 0, 9, 9, 9, 9]], []⟩ =
      some ([20, 0, 0, 0, 16, 0, 5, 3, 1, 0, 0, 0, 2, 0, 0, 0, 9, 9, 9, 9], ⟨[], []⟩) ∧
    read_message ⟨[[20, 0, 0, 0, 16, 0, 5, 3, 1, 0, 0, 0, 2, 0, 0, 0, 9, 9, 9, 9]], []⟩ =
      some ([20, 0, 0, 0, 16, 0, 5, 3, 1, 0, 0, 0, 2, 0, 0, 0, 9, 9, 9, 9], ⟨[], []⟩) :=
  C6_reassembly [20, 0, 0, 0, 16, 0, 5, 3, 1, 0, 0, 0, 2, 0, 0, 0, 9, 9, 9, 9]
    [20, 0, 0, 0, 16, 0, 5, 3, 1, 0] [0, 0, 2, 0, 0, 0, 9, 9, 9, 9]
    ⟨by decide, by decide⟩ rfl (by decide)

/-- C8: nested array.  With a child registry mapping type 1 to the
string decoder and a parent registry mapping type 1 to a nested array,
a payload of two sibling attributes wrapping the type-1 strings foo and
bar decodes to an ordered 2-element sequence whose elements hold the
inner type-1 values foo then bar, in that order. -/
theorem C8_nested_array :
    parse_nla_list 9 parentReg
        (encTLV 1 (encTLV 1 (encTLV 1 fooBytes) ++ encTLV 2 (encTLV 1 barBytes))) =
      some (.ok [AVal.arrayNested 1 [AVal.nested 1 [AVal.scalarStr 1 fooBytes],
        AVal.nested 2 [AVal.scalarStr 1 barBytes]]]) := rfl

/-- C9 (amended): for every message whose type has no dispatcher entry,
BaseNetlinkMessage treats the ENTIRE remainder after the 16-byte netlink
header as the type-specific header, so zero bytes remain and no
attribute tree is parsed at all: root stays none and data_hdr holds the
raw remainder. -/
theorem C9_unknown_type_no_attrs (orig : List Nat) (fuel : Nat)
    (h16 : 16 ≤ orig.length)
    (hunk : msg_map (readU16 orig 4) = MsgKind.base) :
    msgParse fuel orig = some (.ok ⟨orig.drop 16, none⟩) := by
  unfold msgParse
  rw [if_neg (by omega), hunk]
  rw [show parse_hdr MsgKind.base (orig.drop 16) =
    .ok (orig.drop 16, (orig.drop 16).length) from rfl]
  simp only [List.length_drop]
  simp
  intro h
  exact absurd h (by omega)

theorem C9_witness : msgParse 9 m99 = some (.ok ⟨m99.drop 16, none⟩) :=
  C9_unknown_type_no_attrs m99 9 (by decide) (by decide)

/-- C9 counterexample: the claim says an unknown-type message parses
the bytes after the 16-byte header as an attribute tree with the empty
registry.  On m99 those bytes parse to the single opaque leaf of type 1
(second conjunct), yet msgParse leaves root equal to none (first
conjunct), which differs from the tree the claim predicts (third
conjunct). -/
theorem C9_counterexample :
    msgParse 9 m99 = some (.ok ⟨[8, 0, 1, 0, 1, 2, 3, 4], none⟩) ∧
    parse_nla_list 9 [] (m99.drop 16) = some (.ok [AVal.unknown 1 [1, 2, 3, 4]]) ∧
    (none : Option (List AVal)) ≠ some [AVal.unknown 1 [1, 2, 3, 4]] :=
  ⟨rfl, rfl, by simp⟩

end NlDump
